import Mathlib

/-!
Verification of `src/public/scripts/discover.py` (the buyNow comparison tool).

The script's core is `summarize`: given a list of loosely structured trade
records it computes a fixed set of statistics (win rate, average/median R,
profit factor, exit-type percentages, ...).  We give a shallow embedding:

* Python floats are modelled by `PFloat`: NaN, signed infinity, or a finite
  value carried as an exact rational.  The claims under scrutiny concern
  NaN/infinity propagation and exact small values, none depend on binary64
  rounding, so finite arithmetic is modelled exactly.  (Overflow of a huge
  finite literal to infinity is likewise not modelled.)
* Python values reachable from a parsed JSON document (plus floats produced
  by the script itself) are modelled by `PyVal`.
* The exceptions `summarize` can raise are modelled by `Except String`:
  AttributeError — `.get` on a non-mapping, which Python raises for
  `(r.get("simulation") or {}).get(...)` when the nested field is a truthy
  non-mapping — and TypeError — `Counter(...)` hashing an unhashable
  (mapping/sequence) `exitType` value.
-/

/-- Model of a Python float: NaN, +∞/−∞ (`inf false` is +∞), or a finite
value, carried exactly as a rational. -/
inductive PFloat where
  | nan : PFloat
  | inf : Bool → PFloat
  | fin : ℚ → PFloat
deriving DecidableEq

namespace PFloat

/-- Python `x + y` on floats (exact in the finite case). -/
def add : PFloat → PFloat → PFloat
  | nan, _ => nan
  | _, nan => nan
  | inf s, inf t => if s = t then inf s else nan
  | inf s, fin _ => inf s
  | fin _, inf t => inf t
  | fin a, fin b => fin (a + b)

/-- Python unary `-x` on floats. -/
def neg : PFloat → PFloat
  | nan => nan
  | inf s => inf (!s)
  | fin a => fin (-a)

/-- Python `x - y` on floats. -/
def sub (x y : PFloat) : PFloat := add x (neg y)

/-- Python `abs(x)` on floats. -/
def abs : PFloat → PFloat
  | nan => nan
  | inf _ => inf false
  | fin a => fin |a|

/-- Python `x / y` on floats, for a nonzero divisor.  (A zero divisor would
raise ZeroDivisionError in Python; the script only divides after checking
the divisor against 0, so that case is unreachable and mapped to NaN.) -/
def div : PFloat → PFloat → PFloat
  | nan, _ => nan
  | _, nan => nan
  | inf _, inf _ => nan
  | inf s, fin b => if b = 0 then nan else if 0 < b then inf s else inf (!s)
  | fin _, inf _ => fin 0
  | fin a, fin b => if b = 0 then nan else fin (a / b)

/-- Python `x > y` comparison (false whenever NaN is involved). -/
def gt : PFloat → PFloat → Bool
  | nan, _ => false
  | _, nan => false
  | inf s, inf t => !s && t
  | inf s, fin _ => !s
  | fin _, inf t => t
  | fin a, fin b => decide (b < a)

/-- Python `x < y` comparison (false whenever NaN is involved). -/
def lt : PFloat → PFloat → Bool
  | nan, _ => false
  | _, nan => false
  | inf s, inf t => s && !t
  | inf s, fin _ => s
  | fin _, inf t => !t
  | fin a, fin b => decide (a < b)

/-- Python `x == 0` on a float: NaN and infinities compare unequal to 0. -/
def eqZero : PFloat → Bool
  | fin a => decide (a = 0)
  | _ => false

/-- `math.isfinite`. -/
def isFinite : PFloat → Bool
  | fin _ => true
  | _ => false

/-- `math.isnan`. -/
def isNan : PFloat → Bool
  | nan => true
  | _ => false

end PFloat

/-- Model of the Python values reachable from a parsed JSON document,
together with the floats the script itself produces.  Mappings are finite
association lists (JSON objects have unique keys). -/
inductive PyVal where
  | none : PyVal
  | bool : Bool → PyVal
  | int : ℤ → PyVal
  | float : PFloat → PyVal
  | str : String → PyVal
  | dict : List (String × PyVal) → PyVal
  | list : List PyVal → PyVal

namespace PyVal

/-- Python truthiness (`bool(v)`), as used by the `or {}` idiom.  NaN and
the infinities are truthy. -/
def truthy : PyVal → Bool
  | .none => false
  | .bool b => b
  | .int n => decide (n ≠ 0)
  | .float (.fin q) => decide (q ≠ 0)
  | .float _ => true
  | .str s => decide (s ≠ "")
  | .dict d => !d.isEmpty
  | .list l => !l.isEmpty

/-- Python `v == "lit"` for a string literal: under Python's default
equality no value of another built-in type equals a `str`. -/
def eqStr : PyVal → String → Bool
  | .str s, t => decide (s = t)
  | _, _ => false

end PyVal

/-- Python `r.get(k)` on a mapping: the stored value, or `None` when the
key is absent.  On a non-mapping, `.get` raises AttributeError. -/
def getField : PyVal → String → Except String PyVal
  | .dict d, k => .ok ((d.lookup k).getD .none)
  | _, _ => .error "AttributeError"

/-- The `x or {}` idiom: `x` when truthy, the empty mapping otherwise. -/
def orEmpty (v : PyVal) : PyVal := if v.truthy then v else .dict []

/-- `(r.get("simulation") or {}).get(k)`. -/
def simField (r : PyVal) (k : String) : Except String PyVal :=
  Except.bind (getField r "simulation") fun s => getField (orEmpty s) k

/-- `(r.get("risk") or {}).get(k)`. -/
def riskField (r : PyVal) (k : String) : Except String PyVal :=
  Except.bind (getField r "risk") fun s => getField (orEmpty s) k

/-! ### Python `float(...)` coercion -/

/-- Split a leading run of decimal digits off a character list. -/
def splitDigits : List Char → List Char × List Char
  | [] => ([], [])
  | c :: cs =>
    if c.isDigit then
      let p := splitDigits cs
      (c :: p.1, p.2)
    else ([], c :: cs)

/-- Numeric value of a digit string (most significant first). -/
def digitsVal (ds : List Char) : ℕ :=
  ds.foldl (fun a c => 10 * a + (c.toNat - 48)) 0

/-- Rational value of `ip . fp` (integer part, fractional part). -/
def decVal (ip fp : List Char) : ℚ :=
  (digitsVal ip : ℚ) + (digitsVal fp : ℚ) / (10 : ℚ) ^ fp.length

/-- Parse `[±]digits` after an `e`/`E` marker and scale `m` accordingly;
the whole remainder must be consumed. -/
def applyExpAt (m : ℚ) (r : List Char) : Option ℚ :=
  let sr : ℤ × List Char :=
    match r with
    | '+' :: t => (1, t)
    | '-' :: t => (-1, t)
    | t => (1, t)
  let d := splitDigits sr.2
  if d.1.isEmpty || !d.2.isEmpty then Option.none
  else some (m * (10 : ℚ) ^ (sr.1 * (digitsVal d.1 : ℤ)))

/-- Parse the optional exponent suffix `e[±]digits` and apply it to `m`;
the whole remainder must be consumed. -/
def applyExp (m : ℚ) : List Char → Option ℚ
  | [] => some m
  | 'e' :: r => applyExpAt m r
  | 'E' :: r => applyExpAt m r
  | _ => Option.none

/-- Parse an unsigned decimal literal `digits[.digits][e[±]digits]`
(at least one digit before or after the point). -/
def parseDecimal (cs : List Char) : Option ℚ :=
  let ipr := splitDigits cs
  match ipr.2 with
  | '.' :: r2 =>
    let fpr := splitDigits r2
    if ipr.1.isEmpty && fpr.1.isEmpty then Option.none
    else applyExp (decVal ipr.1 fpr.1) fpr.2
  | _ => if ipr.1.isEmpty then Option.none else applyExp (decVal ipr.1 []) ipr.2

/-- Strip leading and trailing whitespace. -/
def trimWs (cs : List Char) : List Char :=
  ((cs.dropWhile Char.isWhitespace).reverse.dropWhile Char.isWhitespace).reverse

/-- Model of Python `float(s)` on a string: optional surrounding whitespace,
optional sign, then `inf`/`infinity`/`nan` (case-insensitive) or a decimal
literal with optional fraction and exponent.  (Exotic forms — underscores,
hexadecimal — and overflow of huge literals to infinity are not modelled;
no claim depends on them.) -/
def parsePyFloat (s : String) : Option PFloat :=
  let cs := trimWs s.toList
  let sb : Bool × List Char :=
    match cs with
    | '+' :: t => (false, t)
    | '-' :: t => (true, t)
    | t => (false, t)
  let low := sb.2.map Char.toLower
  if low = "inf".toList || low = "infinity".toList then some (.inf sb.1)
  else if low = "nan".toList then some .nan
  else (parseDecimal sb.2).map fun q => .fin (if sb.1 then -q else q)

/-- Model of Python `float(v)`: succeeds on floats, ints, bools and numeric
strings, fails (raises TypeError/ValueError) otherwise. -/
def pyFloat : PyVal → Option PFloat
  | .float x => some x
  | .int n => some (.fin (n : ℚ))
  | .bool b => some (.fin (if b then 1 else 0))
  | .str s => parsePyFloat s
  | _ => Option.none

/-! ### The aggregation helpers: `pct`, `safe_mean`, `safe_median` -/

/-- `pct(n, d)`: `100.0 * n / d` when `d` is truthy (nonzero), else NaN. -/
def pct (n d : ℕ) : PFloat :=
  if d ≠ 0 then .fin (100 * (n : ℚ) / (d : ℚ)) else .nan

/-- The survivor list both `safe_mean` and `safe_median` build: each value
is coerced with `float(...)`; coercion failures and non-finite results are
dropped. -/
def finiteVals (xs : List PyVal) : List ℚ :=
  xs.filterMap fun v =>
    match pyFloat v with
    | some (.fin q) => some q
    | _ => Option.none

/-- `safe_mean`: arithmetic mean of the finite survivors, NaN when none. -/
def safe_mean (xs : List PyVal) : PFloat :=
  let ys := finiteVals xs
  if ys.isEmpty then .nan else .fin (ys.sum / (ys.length : ℚ))

/-- Stable insertion into a sorted list (ascending). -/
def insertSorted (x : ℚ) : List ℚ → List ℚ
  | [] => [x]
  | y :: ys => if x ≤ y then x :: y :: ys else y :: insertSorted x ys

/-- Ascending stable sort, modelling Python's `sorted`. -/
def sortQ (l : List ℚ) : List ℚ := l.foldr insertSorted []

/-- `statistics.median`: middle element of the sorted list when `n` is odd,
mean of the two middle elements when `n` is even (callers guarantee the
list is nonempty; Python raises on `[]`, which `safe_median` never passes). -/
def pyMedian (l : List ℚ) : ℚ :=
  let s := sortQ l
  let n := s.length
  if n % 2 = 1 then s.getD (n / 2) 0
  else (s.getD (n / 2 - 1) 0 + s.getD (n / 2) 0) / 2

/-- `safe_median`: median of the finite survivors, NaN when none. -/
def safe_median (xs : List PyVal) : PFloat :=
  let ys := finiteVals xs
  if ys.isEmpty then .nan else .fin (pyMedian ys)

/-- Run a fallible extraction over every row, collecting the results: the
embedding of a generator expression whose body may raise. -/
def mapExcept (f : PyVal → Except String PyVal) : List PyVal → Except String (List PyVal)
  | [] => .ok []
  | r :: rs =>
    Except.bind (f r) fun v =>
      Except.bind (mapExcept f rs) fun vs => .ok (v :: vs)

/-! ### `profit_factor` -/

/-- The coercion applied to `simulation.R` inside `profit_factor`:
`float(R)` with coercion failure mapped to `0.0` by the `try/except`. -/
def coerceR (v : PyVal) : PFloat := (pyFloat v).getD (.fin 0)

/-- One step of `profit_factor`'s loop: add a positive `R` to the gains,
the negation of a negative `R` to the losses, skip the rest (zero and NaN). -/
def pfStep (gl : PFloat × PFloat) (c : PFloat) : PFloat × PFloat :=
  if c.gt (.fin 0) then (gl.1.add c, gl.2)
  else if c.lt (.fin 0) then (gl.1, gl.2.add c.neg)
  else gl

/-- The gains accumulator after `profit_factor`'s loop over the coerced
`R` values. -/
def gainsOf (cs : List PFloat) : PFloat := (cs.foldl pfStep (.fin 0, .fin 0)).1

/-- The losses accumulator after `profit_factor`'s loop over the coerced
`R` values. -/
def lossesOf (cs : List PFloat) : PFloat := (cs.foldl pfStep (.fin 0, .fin 0)).2

/-- The final expression of `profit_factor`: `inf` or NaN when the loss sum
compares equal to `0`, the quotient otherwise. -/
def pfOfSums (gains losses : PFloat) : PFloat :=
  if losses.eqZero then (if gains.gt (.fin 0) then .inf false else .nan)
  else gains.div losses

/-- `profit_factor(rows)`: extract each record's `simulation.R` (this is the
only step that can raise), coerce with failure → 0.0, accumulate gains and
losses, and combine. -/
def profit_factor (rows : List PyVal) : Except String PFloat :=
  Except.bind (mapExcept (fun r => simField r "R") rows) fun Rs =>
    .ok (pfOfSums (gainsOf (Rs.map coerceR)) (lossesOf (Rs.map coerceR)))

/-! ### `summarize` -/

/-- The fixed-shape summary record `summarize` returns.  Field names follow
the keys of the returned dict (`%` dropped). -/
structure Summary where
  n : ℕ
  wins : ℕ
  win_rate : PFloat
  avg_R : PFloat
  med_R : PFloat
  exp_R : PFloat
  profit_factor : PFloat
  avg_return : PFloat
  avg_hold_days : PFloat
  target_hit : PFloat
  stop_hit : PFloat
  time_exit : PFloat
  avg_rr_at_entry : PFloat
  avg_mae : PFloat
  avg_mfe : PFloat
deriving DecidableEq

/-- The pure part of `summarize`, once every field extraction has
succeeded.  `results`/`exitTypes`/... are the per-record values of
`simulation.result`, `simulation.exitType`, `simulation.R`,
`simulation.returnPct`, `risk.rrAtEntry`, `simulation.holdingDays`,
`simulation.maePct`, `simulation.mfePct`; `pf` is the profit factor.
`Counter(...).get("TARGET", 0)` is the number of extracted `exitType`
values that compare equal to the string — only equal strings do. -/
def mkSummary (n : ℕ) (results exitTypes R_vals ret_vals rr_vals hold_days mae_vals mfe_vals : List PyVal) (pf : PFloat) : Summary :=
  let wins := (results.filter fun v => v.eqStr "WIN").length
  { n := n
    wins := wins
    win_rate := pct wins n
    avg_R := safe_mean R_vals
    med_R := safe_median R_vals
    exp_R := safe_mean R_vals
    profit_factor := pf
    avg_return := safe_mean ret_vals
    avg_hold_days := safe_mean hold_days
    target_hit := pct (exitTypes.filter fun v => v.eqStr "TARGET").length n
    stop_hit := pct (exitTypes.filter fun v => v.eqStr "STOP").length n
    time_exit := pct (exitTypes.filter fun v => v.eqStr "TIME").length n
    avg_rr_at_entry := safe_mean rr_vals
    avg_mae := safe_mean mae_vals
    avg_mfe := safe_mean mfe_vals }

/-- The `losses` count `summarize` computes and never uses: records whose
`simulation.result` equals `"LOSS"`. -/
def lossResultCount (results : List PyVal) : ℕ :=
  (results.filter fun v => v.eqStr "LOSS").length

/-- Python hashability of the modelled values: mappings and sequences
(`dict`, `list`) are unhashable; `None`, booleans, ints, floats (NaN and
the infinities included) and strings are hashable. -/
def hashable : PyVal → Bool
  | .dict _ => false
  | .list _ => false
  | _ => true

/-- `Counter(iterable)`: hashes every element, raising TypeError on an
unhashable one; on success the counter holds the same multiset of keys,
kept here as the element list (counting happens later by equality).
Python interleaves extraction and hashing element by element; the model
extracts first and hashes second, which yields the same success set —
only the identity of the exception on doubly-bad inputs can differ. -/
def counterOf (vs : List PyVal) : Except String (List PyVal) :=
  if vs.all hashable then .ok vs else .error "TypeError"

/-- `summarize(rows)`.  Each generator expression walks the rows
extracting a nested field, and `Counter` hashes each extracted
`exitType` — these are the fallible steps, modelled in `Except`; the
aggregates are computed from the extracted lists. -/
def summarize (rows : List PyVal) : Except String Summary :=
  Except.bind (mapExcept (fun r => simField r "result") rows) fun results =>
  Except.bind (mapExcept (fun r => simField r "exitType") rows) fun exitTypes =>
  Except.bind (counterOf exitTypes) fun exCounter =>
  Except.bind (mapExcept (fun r => simField r "R") rows) fun R_vals =>
  Except.bind (mapExcept (fun r => simField r "returnPct") rows) fun ret_vals =>
  Except.bind (mapExcept (fun r => riskField r "rrAtEntry") rows) fun rr_vals =>
  Except.bind (mapExcept (fun r => simField r "holdingDays") rows) fun hold_days =>
  Except.bind (mapExcept (fun r => simField r "maePct") rows) fun mae_vals =>
  Except.bind (mapExcept (fun r => simField r "mfePct") rows) fun mfe_vals =>
  Except.bind (profit_factor rows) fun pf =>
  .ok (mkSummary rows.length results exCounter R_vals ret_vals rr_vals hold_days mae_vals mfe_vals pf)

/-! ### The driver's partition and delta computation -/

/-- `v is True`: the strict identity test against the boolean `True`
(no non-boolean value passes). -/
def isTrueB : PyVal → Bool
  | .bool true => true
  | _ => false

/-- `(r.get("signal") or {}).get("buyNow") is True` — the partition test,
fallible like every nested access. -/
def buyNowFlag (r : PyVal) : Except String Bool :=
  Except.bind (getField r "signal") fun s =>
    Except.bind (getField (orEmpty s) "buyNow") fun v =>
      .ok (isTrueB v)

/-- The pure partition test, meaningful on records whose `signal` access
cannot raise. -/
def bnTrue (r : PyVal) : Bool :=
  match buyNowFlag r with
  | .ok b => b
  | .error _ => false

/-- The driver's partition loop, one event at a time: append to `buy_true`
when the flag holds, to `buy_false` otherwise. -/
def partLoop (acc : List PyVal × List PyVal) : List PyVal → Except String (List PyVal × List PyVal)
  | [] => .ok acc
  | r :: rs =>
    Except.bind (buyNowFlag r) fun bn =>
      partLoop (if bn then (acc.1 ++ [r], acc.2) else (acc.1, acc.2 ++ [r])) rs

/-- The driver's partition: route each event into `buy_true` or `buy_false`
according to `buyNowFlag`, starting from two empty groups. -/
def partitionEvents (events : List PyVal) : Except String (List PyVal × List PyVal) :=
  partLoop ([], []) events

/-- The driver's `delta(a, b, key)` on two summary-field values: both are
floats already, so `float(...)` is the identity and never raises; the
difference is returned when both are finite, NaN otherwise. -/
def delta (av bv : PFloat) : PFloat :=
  if av.isFinite && bv.isFinite then av.sub bv else .nan

/-- `Except.isOk`, to state raising behaviour without binders. -/
def exceptIsOk {ε α : Type} : Except ε α → Bool
  | .ok _ => true
  | .error _ => false

/-! ### The spec's two-record example -/

/-- Record A of the spec's example:
`{signal:{buyNow:true}, simulation:{R:2, result:"WIN", exitType:"TARGET"}}`. -/
def recA : PyVal :=
  .dict [("signal", .dict [("buyNow", .bool true)]),
         ("simulation", .dict [("R", .int 2), ("result", .str "WIN"),
                               ("exitType", .str "TARGET")])]

/-- Record B of the spec's example:
`{signal:{buyNow:false}, simulation:{R:-1, result:"LOSS", exitType:"STOP"}}`. -/
def recB : PyVal :=
  .dict [("signal", .dict [("buyNow", .bool false)]),
         ("simulation", .dict [("R", .int (-1)), ("result", .str "LOSS"),
                               ("exitType", .str "STOP")])]

/-! ### Spec-side definitions (for refinement claims)

These re-state policies in the spec's own words, to be compared with the
definitions embedded from the source. -/

/-- Spec wording of the safe-mean/median survivor list: "coerce each
record's value to a floating-point number; silently discard values that
fail coercion or are infinite/NaN". -/
def spec_survivors (xs : List PyVal) : List ℚ :=
  xs.filterMap fun v =>
    (pyFloat v).bind fun x =>
      match x with
      | .fin q => some q
      | _ => Option.none

/-- Spec wording of safe mean: "if zero values remain, result is NaN;
otherwise return arithmetic mean of survivors". -/
def spec_safe_mean (xs : List PyVal) : PFloat :=
  if spec_survivors xs = [] then .nan
  else .fin ((spec_survivors xs).sum / ((spec_survivors xs).length : ℚ))

/-- Spec wording of safe median. -/
def spec_safe_median (xs : List PyVal) : PFloat :=
  if spec_survivors xs = [] then .nan
  else .fin (pyMedian (spec_survivors xs))

/-- Spec wording of the gain sum: "sum of positive R values". -/
def spec_gainsSum (cs : List PFloat) : PFloat :=
  (cs.filter fun c => c.gt (.fin 0)).foldl PFloat.add (.fin 0)

/-- Spec wording of the loss sum: "sum of absolute negative R values". -/
def spec_lossSum (cs : List PFloat) : PFloat :=
  ((cs.filter fun c => c.lt (.fin 0)).map PFloat.abs).foldl PFloat.add (.fin 0)

/-- Spec wording of the profit factor over the coerced `R` values: gain sum
over loss sum; when the loss sum is zero, +∞ if the gain sum is positive
and NaN otherwise. -/
def spec_profit_factor (cs : List PFloat) : PFloat :=
  if (spec_lossSum cs).eqZero then
    (if (spec_gainsSum cs).gt (.fin 0) then .inf false else .nan)
  else (spec_gainsSum cs).div (spec_lossSum cs)

/-! ### Well-formedness of records (where nested access cannot raise) -/

/-- A value on which the `(… or {}).get` idiom is safe: a mapping, or
falsy (so that `or {}` replaces it). -/
def dictOrFalsy : PyVal → Bool
  | .dict _ => true
  | v => !v.truthy

/-- The `simulation.<k>` value of a record whose `simulation` access
cannot raise (absent → `None`; arbitrary `None` on other records). -/
def simValOf (r : PyVal) (k : String) : PyVal :=
  match r with
  | .dict d =>
    (match orEmpty ((d.lookup "simulation").getD .none) with
     | .dict d2 => (d2.lookup k).getD .none
     | _ => .none)
  | _ => .none

/-- A record `summarize` can process without raising: a mapping whose
`simulation` and `risk` fields (when present) are mappings or falsy, and
whose `simulation.exitType` value is hashable (so that `Counter` does not
raise TypeError on it). -/
def goodRec : PyVal → Bool
  | .dict d =>
    dictOrFalsy ((d.lookup "simulation").getD .none) &&
    (dictOrFalsy ((d.lookup "risk").getD .none) &&
     hashable (simValOf (.dict d) "exitType"))
  | _ => false

/-- An event the driver's partition can route without raising: a mapping
whose `signal` field (when present) is a mapping or falsy. -/
def goodSig : PyVal → Bool
  | .dict d => dictOrFalsy ((d.lookup "signal").getD .none)
  | _ => false

/-- The `signal.buyNow` value of a well-formed event (absent → `None`). -/
def buyNowOf : PyVal → PyVal
  | .dict d =>
    (match orEmpty ((d.lookup "signal").getD .none) with
     | .dict d2 => (d2.lookup "buyNow").getD .none
     | _ => .none)
  | _ => .none

/-- The summary of the spec-example true group `[recA]`, as the code
computes it. -/
def exA : Summary :=
  { n := 1, wins := 1, win_rate := .fin 100,
    avg_R := .fin 2, med_R := .fin 2, exp_R := .fin 2, profit_factor := .inf false,
    avg_return := .nan, avg_hold_days := .nan, target_hit := .fin 100,
    stop_hit := .fin 0, time_exit := .fin 0, avg_rr_at_entry := .nan,
    avg_mae := .nan, avg_mfe := .nan }

/-- The summary of the spec-example false group `[recB]`, as the code
computes it: note `profit_factor = 0` (gains 0, losses 1), not NaN. -/
def exB : Summary :=
  { n := 1, wins := 0, win_rate := .fin 0,
    avg_R := .fin (-1), med_R := .fin (-1), exp_R := .fin (-1), profit_factor := .fin 0,
    avg_return := .nan, avg_hold_days := .nan, target_hit := .fin 0,
    stop_hit := .fin 100, time_exit := .fin 0, avg_rr_at_entry := .nan,
    avg_mae := .nan, avg_mfe := .nan }

/-- A gains accumulator value: +∞ or a nonnegative finite value. -/
def NonnegF (x : PFloat) : Prop := x = .inf false ∨ ∃ q : ℚ, x = .fin q ∧ 0 ≤ q

/-- A strictly positive gains value: +∞ or a positive finite value. -/
def PosF (x : PFloat) : Prop := x = .inf false ∨ ∃ q : ℚ, x = .fin q ∧ 0 < q

/-- Concrete rows exercising the well-formedness condition: a full record,
an empty mapping, falsy `simulation`/`risk` fields, and a non-numeric `R`. -/
def c2rows : List PyVal :=
  [recA, .dict [], .dict [("simulation", .none), ("risk", .int 0)],
   .dict [("simulation", .dict [("R", .str "bad")]), ("risk", .dict [])]]

/-- A record whose `simulation.R` is the float `2.0`. -/
def c3row : PyVal := .dict [("simulation", .dict [("R", .float (.fin 2))])]

/-- A record whose `simulation.R` is `float("inf")`. -/
def c10rowInf : PyVal := .dict [("simulation", .dict [("R", .float (.inf false))])]

/-- A record whose `simulation.R` is `float("-inf")`. -/
def c10rowNegInf : PyVal := .dict [("simulation", .dict [("R", .float (.inf true))])]

/-- A record whose `simulation.R` is `-2.0`. -/
def c10rowNeg2 : PyVal := .dict [("simulation", .dict [("R", .float (.fin (-2)))])]

/-- An event whose `signal.buyNow` is the truthy non-boolean string
`"true"`: the strict identity test routes it to the false group. -/
def recStrTrue : PyVal := .dict [("signal", .dict [("buyNow", .str "true")])]

/-! ### Sanity checks (concrete evaluations of the embedded code) -/

example : simField (.dict [("simulation", .dict [("R", .int 2)])]) "R" = .ok (.int 2) := rfl
example : simField (.dict []) "R" = .ok .none := rfl
example : simField (.dict [("simulation", .str "x")]) "R" = .error "AttributeError" := rfl
example : simField (.dict [("simulation", .none)]) "R" = .ok .none := rfl
example : pyFloat (.str "2.5") = some (.fin (5/2)) := by with_unfolding_all rfl
example : pyFloat (.str "-inf") = some (.inf true) := by decide
example : pyFloat (.str "abc") = Option.none := by decide
example : pyFloat (.str " 1e2 ") = some (.fin 100) := by with_unfolding_all rfl
example : pyFloat .none = Option.none := rfl
example : pyFloat (.bool true) = some (.fin 1) := rfl
example : safe_mean [.int 1, .str "oops", .int 4] = .fin (5/2) := by with_unfolding_all rfl
example : safe_median [.int 3, .int 1, .int 2] = .fin 2 := by decide
example : safe_median [.int 4, .int 1, .int 2, .int 3] = .fin (5/2) := by with_unfolding_all rfl
example : safe_mean [] = .nan := rfl
example : safe_mean [.float (.inf false), .float .nan] = .nan := by decide
example : partitionEvents [recA, recB] = .ok ([recA], [recB]) := by with_unfolding_all rfl
example : summarize [recA] = .ok exA := by with_unfolding_all rfl
example : summarize [recB] = .ok exB := by with_unfolding_all rfl
example : exceptIsOk (summarize [.dict [("simulation", .dict [("exitType", .dict [])])]]) =
    false := by with_unfolding_all rfl
example : exceptIsOk (summarize [.dict [("simulation", .dict [("exitType", .list [])])]]) =
    false := by with_unfolding_all rfl
example : goodRec (.dict [("simulation", .dict [("exitType", .dict [])])]) = false := by decide

/-! ### Helper lemmas -/

theorem except_bind_ok {ε α β : Type} {x : Except ε α} {f : α → Except ε β} {b : β}
    (h : Except.bind x f = .ok b) : ∃ a, x = .ok a ∧ f a = .ok b := by
  cases x with
  | error e => simp [Except.bind] at h
  | ok a => exact ⟨a, rfl, h⟩

theorem mapExcept_ok_length {f : PyVal → Except String PyVal} :
    ∀ {l l'}, mapExcept f l = .ok l' → l'.length = l.length := by
  intro l
  induction l with
  | nil => intro l' h; unfold mapExcept at h; cases h; rfl
  | cons r rs ih =>
    intro l' h
    unfold mapExcept at h
    obtain ⟨v, hv, h⟩ := except_bind_ok h
    obtain ⟨vs, hvs, h⟩ := except_bind_ok h
    cases h
    simp [ih hvs]

theorem mapExcept_ok_of_forall {f : PyVal → Except String PyVal} :
    ∀ {l}, (∀ r ∈ l, ∃ v, f r = .ok v) → ∃ l', mapExcept f l = .ok l' := by
  intro l
  induction l with
  | nil => intro _; exact ⟨[], rfl⟩
  | cons r rs ih =>
    intro hall
    obtain ⟨v, hv⟩ := hall r (List.mem_cons_self r rs)
    obtain ⟨vs, hvs⟩ := ih fun x hx => hall x (List.mem_cons_of_mem r hx)
    exact ⟨v :: vs, by unfold mapExcept; rw [hv, hvs]; rfl⟩

theorem mapExcept_eq_map {f : PyVal → Except String PyVal} {g : PyVal → PyVal} :
    ∀ {l}, (∀ r ∈ l, f r = .ok (g r)) → mapExcept f l = .ok (l.map g) := by
  intro l
  induction l with
  | nil => intro _; rfl
  | cons r rs ih =>
    intro hall
    unfold mapExcept
    rw [hall r (List.mem_cons_self r rs), ih fun x hx => hall x (List.mem_cons_of_mem r hx)]
    rfl

theorem counter_bind_ok {α : Type} {vs : List PyVal} {g : List PyVal → Except String α} {b : α}
    (h : Except.bind (counterOf vs) g = .ok b) :
    vs.all hashable = true ∧ g vs = .ok b := by
  by_cases hh : vs.all hashable = true
  · refine ⟨hh, ?_⟩
    unfold counterOf at h
    rw [if_pos hh] at h
    simpa [Except.bind] using h
  · exfalso
    unfold counterOf at h
    rw [if_neg hh] at h
    simp [Except.bind] at h

theorem summarize_ok_inv {rows : List PyVal} {s : Summary} (h : summarize rows = .ok s) :
    ∃ results exitTypes R_vals ret_vals rr_vals hold_days mae_vals mfe_vals pf,
      mapExcept (fun r => simField r "result") rows = .ok results ∧
      mapExcept (fun r => simField r "exitType") rows = .ok exitTypes ∧
      exitTypes.all hashable = true ∧
      mapExcept (fun r => simField r "R") rows = .ok R_vals ∧
      mapExcept (fun r => simField r "returnPct") rows = .ok ret_vals ∧
      mapExcept (fun r => riskField r "rrAtEntry") rows = .ok rr_vals ∧
      mapExcept (fun r => simField r "holdingDays") rows = .ok hold_days ∧
      mapExcept (fun r => simField r "maePct") rows = .ok mae_vals ∧
      mapExcept (fun r => simField r "mfePct") rows = .ok mfe_vals ∧
      profit_factor rows = .ok pf ∧
      s = mkSummary rows.length results exitTypes R_vals ret_vals rr_vals hold_days mae_vals mfe_vals pf := by
  unfold summarize at h
  obtain ⟨results, h1, ha⟩ := except_bind_ok h
  obtain ⟨exitTypes, h2, hb⟩ := except_bind_ok ha
  obtain ⟨hchash, hc⟩ := counter_bind_ok hb
  obtain ⟨R_vals, h3, hd⟩ := except_bind_ok hc
  obtain ⟨ret_vals, h4, he⟩ := except_bind_ok hd
  obtain ⟨rr_vals, h5, hf⟩ := except_bind_ok he
  obtain ⟨hold_days, h6, hg⟩ := except_bind_ok hf
  obtain ⟨mae_vals, h7, hi⟩ := except_bind_ok hg
  obtain ⟨mfe_vals, h8, hj⟩ := except_bind_ok hi
  obtain ⟨pf, h9, hk⟩ := except_bind_ok hj
  injection hk with hk
  exact ⟨results, exitTypes, R_vals, ret_vals, rr_vals, hold_days, mae_vals, mfe_vals, pf,
    h1, h2, hchash, h3, h4, h5, h6, h7, h8, h9, hk.symm⟩

theorem gt_zero_not_lt {c : PFloat} (h : c.gt (.fin 0) = true) : c.lt (.fin 0) = false := by
  cases c with
  | nan => simp [PFloat.gt] at h
  | inf s => cases s <;> simp_all [PFloat.gt, PFloat.lt]
  | fin a =>
    simp [PFloat.gt] at h
    simp [PFloat.lt]
    linarith

theorem neg_eq_abs_of_lt {c : PFloat} (h : c.lt (.fin 0) = true) : c.neg = c.abs := by
  cases c with
  | nan => simp [PFloat.lt] at h
  | inf s => cases s <;> simp_all [PFloat.lt, PFloat.neg, PFloat.abs]
  | fin a =>
    simp [PFloat.lt] at h
    simp [PFloat.neg, PFloat.abs, abs_of_neg h]

theorem pfStep_fold_eq (cs : List PFloat) : ∀ g l : PFloat,
    cs.foldl pfStep (g, l) =
      ((cs.filter fun c => c.gt (.fin 0)).foldl PFloat.add g,
       ((cs.filter fun c => c.lt (.fin 0)).map PFloat.abs).foldl PFloat.add l) := by
  induction cs with
  | nil => intro g l; simp
  | cons c cs ih =>
    intro g l
    by_cases hg : c.gt (.fin 0) = true
    · have hl := gt_zero_not_lt hg
      simp [pfStep, hg, hl, List.filter_cons, ih]
    · by_cases hl : c.lt (.fin 0) = true
      · simp [pfStep, hg, hl, List.filter_cons, ih, neg_eq_abs_of_lt hl]
      · simp [pfStep, hg, hl, List.filter_cons, ih]

theorem gainsOf_eq_spec (cs : List PFloat) : gainsOf cs = spec_gainsSum cs := by
  unfold gainsOf spec_gainsSum
  rw [pfStep_fold_eq]

theorem lossesOf_eq_spec (cs : List PFloat) : lossesOf cs = spec_lossSum cs := by
  unfold lossesOf spec_lossSum
  rw [pfStep_fold_eq]

theorem posF_nonneg {x : PFloat} (h : PosF x) : NonnegF x := by
  rcases h with h | ⟨q, rfl, hq⟩
  · exact Or.inl h
  · exact Or.inr ⟨q, rfl, le_of_lt hq⟩

theorem gt_zero_of_posF {x : PFloat} (h : PosF x) : x.gt (.fin 0) = true := by
  rcases h with rfl | ⟨q, rfl, hq⟩
  · rfl
  · simp [PFloat.gt, hq]

theorem add_posF {x c : PFloat} (hx : NonnegF x) (hc : c.gt (.fin 0) = true) :
    PosF (x.add c) := by
  cases c with
  | nan => simp [PFloat.gt] at hc
  | inf s =>
    cases s
    · rcases hx with rfl | ⟨q, rfl, _⟩
      · exact Or.inl rfl
      · exact Or.inl rfl
    · simp [PFloat.gt] at hc
  | fin p =>
    simp [PFloat.gt] at hc
    rcases hx with rfl | ⟨q, rfl, hq⟩
    · exact Or.inl rfl
    · exact Or.inr ⟨q + p, rfl, by linarith⟩

theorem fold_add_posF {cs : List PFloat} (hall : ∀ c ∈ cs, c.gt (.fin 0) = true) :
    ∀ {x : PFloat}, PosF x → PosF (cs.foldl PFloat.add x) := by
  induction cs with
  | nil => intro x hx; exact hx
  | cons c cs ih =>
    intro x hx
    have hc := hall c (List.mem_cons_self c cs)
    exact ih (fun d hd => hall d (List.mem_cons_of_mem c hd)) (add_posF (posF_nonneg hx) hc)

theorem fold_add_posF_of_ne_nil {cs : List PFloat} (hall : ∀ c ∈ cs, c.gt (.fin 0) = true)
    (hne : cs ≠ []) {x : PFloat} (hx : NonnegF x) : PosF (cs.foldl PFloat.add x) := by
  cases cs with
  | nil => exact absurd rfl hne
  | cons c cs =>
    have hc := hall c (List.mem_cons_self c cs)
    exact fold_add_posF (fun d hd => hall d (List.mem_cons_of_mem c hd)) (add_posF hx hc)

theorem add_inf_right {x : PFloat} (hx : NonnegF x) : x.add (.inf false) = .inf false := by
  rcases hx with rfl | ⟨q, rfl, _⟩ <;> rfl

theorem inf_add_pos {c : PFloat} (hc : c.gt (.fin 0) = true) :
    (PFloat.inf false).add c = .inf false := by
  cases c with
  | nan => simp [PFloat.gt] at hc
  | inf s => cases s <;> simp_all [PFloat.gt, PFloat.add]
  | fin p => rfl

theorem fold_add_inf {cs : List PFloat} (hall : ∀ c ∈ cs, c.gt (.fin 0) = true) :
    ∀ {x : PFloat}, NonnegF x → ((.inf false) ∈ cs ∨ x = .inf false) →
      cs.foldl PFloat.add x = .inf false := by
  induction cs with
  | nil =>
    intro x _ h
    rcases h with h | rfl
    · simp at h
    · rfl
  | cons c cs ih =>
    intro x hx h
    have hc := hall c (List.mem_cons_self c cs)
    have hrest := fun d hd => hall d (List.mem_cons_of_mem c hd)
    rcases h with h | rfl
    · rcases List.mem_cons.mp h with rfl | hmem
      · rw [List.foldl_cons, add_inf_right hx]
        exact ih hrest (Or.inl rfl) (Or.inr rfl)
      · exact ih hrest (posF_nonneg (add_posF hx hc)) (Or.inl hmem)
    · rw [List.foldl_cons, inf_add_pos hc]
      exact ih hrest (Or.inl rfl) (Or.inr rfl)

theorem fold_add_fin {cs : List PFloat} (hall : ∀ c ∈ cs, ∃ p : ℚ, c = .fin p ∧ 0 ≤ p) :
    ∀ {q : ℚ}, 0 ≤ q → ∃ q', 0 ≤ q' ∧ cs.foldl PFloat.add (.fin q) = .fin q' := by
  induction cs with
  | nil => intro q hq; exact ⟨q, hq, rfl⟩
  | cons c cs ih =>
    intro q hq
    obtain ⟨p, hc, hp⟩ := hall c (List.mem_cons_self c cs)
    subst hc
    have hstep : (PFloat.fin q).add (.fin p) = .fin (q + p) := rfl
    rw [List.foldl_cons, hstep]
    exact ih (fun d hd => hall d (List.mem_cons_of_mem _ hd)) (by linarith)

theorem orEmpty_dict_of_dictOrFalsy {v : PyVal} (h : dictOrFalsy v = true) :
    ∃ d, orEmpty v = .dict d := by
  by_cases ht : v.truthy = true
  · cases v with
    | dict d => exact ⟨d, by simp [orEmpty, ht]⟩
    | none => exact absurd h (by simp [dictOrFalsy, ht])
    | bool b => exact absurd h (by simp [dictOrFalsy, ht])
    | int n => exact absurd h (by simp [dictOrFalsy, ht])
    | float x => exact absurd h (by simp [dictOrFalsy, ht])
    | str s => exact absurd h (by simp [dictOrFalsy, ht])
    | list l => exact absurd h (by simp [dictOrFalsy, ht])
  · have ht' : v.truthy = false := by simpa using ht
    exact ⟨[], by simp [orEmpty, ht']⟩

theorem simField_eq_of_goodRec {r : PyVal} (h : goodRec r = true) (k : String) :
    simField r k = .ok (simValOf r k) := by
  cases r with
  | dict d =>
    rw [goodRec, Bool.and_eq_true] at h
    obtain ⟨d1, hd1⟩ := orEmpty_dict_of_dictOrFalsy h.1
    unfold simField simValOf
    simp [getField, Except.bind, hd1]
  | none => simp [goodRec] at h
  | bool b => simp [goodRec] at h
  | int n => simp [goodRec] at h
  | float x => simp [goodRec] at h
  | str s => simp [goodRec] at h
  | list l => simp [goodRec] at h

theorem simField_ok_of_goodRec {r : PyVal} (h : goodRec r = true) (k : String) :
    ∃ v, simField r k = .ok v :=
  ⟨simValOf r k, simField_eq_of_goodRec h k⟩

theorem exitType_hashable_of_goodRec {r : PyVal} (h : goodRec r = true) :
    hashable (simValOf r "exitType") = true := by
  cases r with
  | dict d =>
    rw [goodRec, Bool.and_eq_true, Bool.and_eq_true] at h
    exact h.2.2
  | none => simp [goodRec] at h
  | bool b => simp [goodRec] at h
  | int n => simp [goodRec] at h
  | float x => simp [goodRec] at h
  | str s => simp [goodRec] at h
  | list l => simp [goodRec] at h

theorem riskField_ok_of_goodRec {r : PyVal} (h : goodRec r = true) (k : String) :
    ∃ v, riskField r k = .ok v := by
  cases r with
  | dict d =>
    rw [goodRec, Bool.and_eq_true, Bool.and_eq_true] at h
    obtain ⟨d1, hd1⟩ := orEmpty_dict_of_dictOrFalsy h.2.1
    exact ⟨(d1.lookup k).getD .none, by unfold riskField; simp [getField, Except.bind, hd1]⟩
  | none => simp [goodRec] at h
  | bool b => simp [goodRec] at h
  | int n => simp [goodRec] at h
  | float x => simp [goodRec] at h
  | str s => simp [goodRec] at h
  | list l => simp [goodRec] at h

theorem buyNowFlag_ok_of_goodSig {r : PyVal} (h : goodSig r = true) :
    buyNowFlag r = .ok (isTrueB (buyNowOf r)) := by
  cases r with
  | dict d =>
    rw [goodSig] at h
    obtain ⟨d1, hd1⟩ := orEmpty_dict_of_dictOrFalsy h
    unfold buyNowFlag buyNowOf
    simp [getField, Except.bind, hd1]
  | none => simp [goodSig] at h
  | bool b => simp [goodSig] at h
  | int n => simp [goodSig] at h
  | float x => simp [goodSig] at h
  | str s => simp [goodSig] at h
  | list l => simp [goodSig] at h

theorem bnTrue_of_goodSig {r : PyVal} (h : goodSig r = true) :
    bnTrue r = isTrueB (buyNowOf r) := by
  unfold bnTrue
  rw [buyNowFlag_ok_of_goodSig h]

theorem isTrueB_iff {v : PyVal} : isTrueB v = true ↔ v = .bool true := by
  cases v with
  | bool b => cases b <;> simp [isTrueB]
  | none => simp [isTrueB]
  | int n => simp [isTrueB]
  | float x => simp [isTrueB]
  | str s => simp [isTrueB]
  | dict d => simp [isTrueB]
  | list l => simp [isTrueB]

/-! ### Claims -/

/-- C1 (corrected): the spec's two-record example.  Summarizing the true
group `[recA]` yields `n=1, wins=1, win_rate_%=100, avg_R=2,
profit_factor=+∞` exactly as claimed, and the false group `[recB]` yields
`n=1, wins=0, win_rate_%=0, avg_R=-1` — but its profit factor is `0.0`
(gain sum `0.0` divided by loss sum `1.0`), not NaN: the NaN branch is
taken only when the **loss** sum is zero. -/
theorem c1_example_summaries :
    summarize [recA] = .ok exA ∧ summarize [recB] = .ok exB ∧
    exA.n = 1 ∧ exA.wins = 1 ∧ exA.win_rate = .fin 100 ∧ exA.avg_R = .fin 2 ∧
    exA.profit_factor = .inf false ∧
    exB.n = 1 ∧ exB.wins = 0 ∧ exB.win_rate = .fin 0 ∧ exB.avg_R = .fin (-1) ∧
    exB.profit_factor = .fin 0 :=
  ⟨by with_unfolding_all rfl, by with_unfolding_all rfl,
   rfl, rfl, rfl, rfl, rfl, rfl, rfl, rfl, rfl, rfl⟩

/-- C1 counterexample: on the claim's own input, the false group's profit
factor is `0.0`, not NaN as the claim states. -/
theorem c1_false_group_profit_factor_zero :
    Except.map Summary.profit_factor (summarize [recB]) = .ok (.fin 0) ∧
    PFloat.fin 0 ≠ PFloat.nan :=
  ⟨by with_unfolding_all rfl, by decide⟩

/-- C5 (confirmed): `summarize []` returns `n = 0`, `wins = 0`, and every
percentage, mean/median and profit-factor field equal to NaN. -/
theorem c5_empty_summary :
    summarize [] = .ok {
      n := 0, wins := 0, win_rate := .nan,
      avg_R := .nan, med_R := .nan, exp_R := .nan, profit_factor := .nan,
      avg_return := .nan, avg_hold_days := .nan, target_hit := .nan,
      stop_hit := .nan, time_exit := .nan, avg_rr_at_entry := .nan,
      avg_mae := .nan, avg_mfe := .nan } := by
  with_unfolding_all rfl

/-- C2 counterexample: `summarize` **does** raise on a list of mappings
when a present `simulation` field is a truthy non-mapping — Python's
`("x").get("result")` is an AttributeError the `or {}` idiom does not
prevent.  (`Counter` raising TypeError on an unhashable `exitType` is a
second failure mode; see the sanity checks.) -/
theorem c2_summarize_raises_on_truthy_nonmapping :
    exceptIsOk (summarize [.dict [("simulation", .str "x")]]) = false := by
  with_unfolding_all rfl

/-- C2 (corrected): `summarize` completes and returns a summary for every
list of mappings whose `simulation` and `risk` fields, when present and
truthy, are themselves mappings, and whose `simulation.exitType` value is
hashable (not a mapping/sequence, on which `Counter` raises TypeError);
all other malformed or missing values are excluded from the aggregates
rather than aborting the computation.  (The unrestricted claim is refuted
by `c2_summarize_raises_on_truthy_nonmapping`.) -/
theorem c2_summarize_total_on_wellformed (rows : List PyVal)
    (h : ∀ r ∈ rows, goodRec r = true) : ∃ s, summarize rows = .ok s := by
  obtain ⟨results, h1⟩ :=
    mapExcept_ok_of_forall (fun r hr => simField_ok_of_goodRec (h r hr) "result")
  have h2 : mapExcept (fun r => simField r "exitType") rows =
      .ok (rows.map fun r => simValOf r "exitType") :=
    mapExcept_eq_map fun r hr => simField_eq_of_goodRec (h r hr) "exitType"
  have hhash : (rows.map fun r => simValOf r "exitType").all hashable = true := by
    rw [List.all_eq_true]
    intro v hv
    obtain ⟨r, hr, hveq⟩ := List.mem_map.mp hv
    subst hveq
    exact exitType_hashable_of_goodRec (h r hr)
  have hctr : counterOf (rows.map fun r => simValOf r "exitType") =
      .ok (rows.map fun r => simValOf r "exitType") := by
    unfold counterOf
    rw [hhash]
    rfl
  obtain ⟨R_vals, h3⟩ :=
    mapExcept_ok_of_forall (fun r hr => simField_ok_of_goodRec (h r hr) "R")
  obtain ⟨ret_vals, h4⟩ :=
    mapExcept_ok_of_forall (fun r hr => simField_ok_of_goodRec (h r hr) "returnPct")
  obtain ⟨rr_vals, h5⟩ :=
    mapExcept_ok_of_forall (fun r hr => riskField_ok_of_goodRec (h r hr) "rrAtEntry")
  obtain ⟨hold_days, h6⟩ :=
    mapExcept_ok_of_forall (fun r hr => simField_ok_of_goodRec (h r hr) "holdingDays")
  obtain ⟨mae_vals, h7⟩ :=
    mapExcept_ok_of_forall (fun r hr => simField_ok_of_goodRec (h r hr) "maePct")
  obtain ⟨mfe_vals, h8⟩ :=
    mapExcept_ok_of_forall (fun r hr => simField_ok_of_goodRec (h r hr) "mfePct")
  have hpf : profit_factor rows =
      .ok (pfOfSums (gainsOf (R_vals.map coerceR)) (lossesOf (R_vals.map coerceR))) := by
    unfold profit_factor
    rw [h3]
    rfl
  have hok : summarize rows = .ok (mkSummary rows.length results
      (rows.map fun r => simValOf r "exitType") R_vals ret_vals
      rr_vals hold_days mae_vals mfe_vals
      (pfOfSums (gainsOf (R_vals.map coerceR)) (lossesOf (R_vals.map coerceR)))) := by
    unfold summarize
    simp only [h1, h2, hctr, h3, h4, h5, h6, h7, h8, hpf, Except.bind]
  exact ⟨_, hok⟩

/-- C2 witness: the well-formedness condition holds of a concrete mixed
row list, on which `summarize` completes. -/
theorem c2_witness : (∀ r ∈ c2rows, goodRec r = true) ∧ ∃ s, summarize c2rows = .ok s :=
  ⟨by decide, c2_summarize_total_on_wellformed c2rows (by decide)⟩

/-- C9 (confirmed): `exp_R` and `avg_R` are computed by the identical
safe-mean formula over `simulation.R`, so they are equal in every summary
`summarize` returns. -/
theorem c9_expectancy_eq_avg (rows : List PyVal) (s : Summary)
    (h : summarize rows = .ok s) : s.exp_R = s.avg_R := by
  obtain ⟨res, ext, Rv, rv, rr, hd, ma, mf, pf, _, _, _, _, _, _, _, _, _, _, hs⟩ :=
    summarize_ok_inv h
  subst hs
  simp [mkSummary]

/-- C9 witness: the expectancy and average-R of the example summary agree. -/
theorem c9_witness : exA.exp_R = exA.avg_R :=
  c9_expectancy_eq_avg [recA] exA (by with_unfolding_all rfl)

theorem finiteVals_eq_spec (xs : List PyVal) : finiteVals xs = spec_survivors xs := by
  unfold finiteVals spec_survivors
  congr 1
  funext v
  cases h : pyFloat v with
  | none => rfl
  | some x => cases x <;> rfl

theorem finiteVals_exclude {v : PyVal} (hv : pyFloat v = Option.none) (xs₁ xs₂ : List PyVal) :
    finiteVals (xs₁ ++ v :: xs₂) = finiteVals (xs₁ ++ xs₂) := by
  unfold finiteVals
  simp [List.filterMap_append, List.filterMap_cons, hv]

/-- C4 (confirmed): the safe-mean/safe-median policy.  Each value is
coerced with `float(...)`; coercion failures and non-finite results are
silently discarded; the result is NaN when no survivors remain and the
arithmetic mean (resp. `statistics.median`) of the survivors otherwise.
Consequently a value that fails coercion (e.g. a non-numeric string) is
excluded from `avg_R`/`med_R`, while `n` still counts every record. -/
theorem c4_safe_mean_median_policy :
    (∀ xs, safe_mean xs = spec_safe_mean xs ∧ safe_median xs = spec_safe_median xs) ∧
    (∀ xs₁ xs₂ v, pyFloat v = Option.none →
      safe_mean (xs₁ ++ v :: xs₂) = safe_mean (xs₁ ++ xs₂) ∧
      safe_median (xs₁ ++ v :: xs₂) = safe_median (xs₁ ++ xs₂)) ∧
    (∀ rows s, summarize rows = .ok s →
      s.n = rows.length ∧
      ∀ R_vals, mapExcept (fun r => simField r "R") rows = .ok R_vals →
        s.avg_R = safe_mean R_vals ∧ s.med_R = safe_median R_vals) := by
  refine ⟨?_, ?_, ?_⟩
  · intro xs
    constructor
    · unfold safe_mean spec_safe_mean
      rw [finiteVals_eq_spec]
      cases hys : spec_survivors xs with
      | nil => rfl
      | cons a l => rfl
    · unfold safe_median spec_safe_median
      rw [finiteVals_eq_spec]
      cases hys : spec_survivors xs with
      | nil => rfl
      | cons a l => rfl
  · intro xs₁ xs₂ v hv
    have hfv := finiteVals_exclude hv xs₁ xs₂
    constructor
    · unfold safe_mean
      rw [hfv]
    · unfold safe_median
      rw [hfv]
  · intro rows s h
    obtain ⟨res, ext, Rv, rv, rr, hd, ma, mf, pf, _, _, _, hR, _, _, _, _, _, _, hs⟩ :=
      summarize_ok_inv h
    subst hs
    refine ⟨by simp [mkSummary], ?_⟩
    intro R_vals hR'
    rw [hR] at hR'
    injection hR' with hR'
    subst hR'
    exact ⟨by simp [mkSummary], by simp [mkSummary]⟩

/-- C4 witness: the non-numeric string `"oops"` is excluded from the mean
and the median, while the example record is still counted in `n` and the
example's `avg_R` matches `safe_mean` over the extracted `R` list. -/
theorem c4_witness :
    safe_mean ([PyVal.int 2] ++ PyVal.str "oops" :: []) = safe_mean ([PyVal.int 2] ++ []) ∧
    safe_median ([PyVal.int 2] ++ PyVal.str "oops" :: []) = safe_median ([PyVal.int 2] ++ []) ∧
    exA.n = [recA].length ∧ exA.avg_R = safe_mean [PyVal.int 2] := by
  have he := c4_safe_mean_median_policy.2.1 [PyVal.int 2] [] (PyVal.str "oops")
    (by with_unfolding_all rfl)
  have hn := c4_safe_mean_median_policy.2.2 [recA] exA (by with_unfolding_all rfl)
  exact ⟨he.1, he.2, hn.1, (hn.2 [PyVal.int 2] (by with_unfolding_all rfl)).1⟩

/-- C8 (confirmed): `win_rate_%` is `100·wins/n` for nonempty row lists,
where `wins` counts the records whose `simulation.result` equals `"WIN"`,
and the value lies in `[0, 100]`; for `n = 0` it is NaN. -/
theorem c8_win_rate (rows : List PyVal) (s : Summary) (results : List PyVal)
    (h : summarize rows = .ok s)
    (hres : mapExcept (fun r => simField r "result") rows = .ok results) :
    s.n = rows.length ∧
    s.wins = (results.filter fun v => v.eqStr "WIN").length ∧
    (rows ≠ [] →
      ∃ q : ℚ, s.win_rate = .fin q ∧ q = 100 * (s.wins : ℚ) / (s.n : ℚ) ∧ 0 ≤ q ∧ q ≤ 100) ∧
    (rows = [] → s.win_rate = .nan) := by
  obtain ⟨res, ext, Rv, rv, rr, hd, ma, mf, pf, h1, _, _, _, _, _, _, _, _, _, hs⟩ :=
    summarize_ok_inv h
  rw [h1] at hres
  injection hres with hres
  subst hs
  rw [hres] at h1 ⊢
  have hlen : results.length = rows.length := mapExcept_ok_length h1
  refine ⟨by simp [mkSummary], by simp [mkSummary], ?_, ?_⟩
  · intro hne
    have hn0 : rows.length ≠ 0 := fun h0 => hne (List.length_eq_zero.mp h0)
    have hnQ : (0 : ℚ) < (rows.length : ℚ) := by
      have : 0 < rows.length := Nat.pos_of_ne_zero hn0
      exact_mod_cast this
    have hwle : (results.filter fun v => v.eqStr "WIN").length ≤ rows.length := by
      have := List.length_filter_le (fun v => v.eqStr "WIN") results
      omega
    refine ⟨100 * ((results.filter fun v => v.eqStr "WIN").length : ℚ) / (rows.length : ℚ),
      ?_, ?_, ?_, ?_⟩
    · simp [mkSummary, pct, hn0]
    · simp [mkSummary]
    · positivity
    · rw [div_le_iff₀ hnQ]
      have hwQ : ((results.filter fun v => v.eqStr "WIN").length : ℚ) ≤ (rows.length : ℚ) := by
        exact_mod_cast hwle
      nlinarith
  · intro he
    subst he
    simp at hlen
    simp [mkSummary, pct, hlen]

/-- C8 witness: the win rate of the example summary is `100·1/1 = 100`,
inside `[0, 100]`. -/
theorem c8_witness :
    ∃ q : ℚ, exA.win_rate = .fin q ∧ q = 100 * (exA.wins : ℚ) / (exA.n : ℚ) ∧ 0 ≤ q ∧ q ≤ 100 :=
  (c8_win_rate [recA] exA [PyVal.str "WIN"] (by with_unfolding_all rfl)
    (by with_unfolding_all rfl)).2.2.1 (by simp)

theorem coerceR_not_lt_of_pos {v : PyVal}
    (hall : ∀ x, pyFloat v = some x → x.gt (.fin 0) = true) :
    (coerceR v).lt (.fin 0) = false := by
  unfold coerceR
  cases hp : pyFloat v with
  | none => simp [Option.getD, PFloat.lt]
  | some x => simpa [Option.getD] using gt_zero_not_lt (hall x hp)

/-- C3 (confirmed): `profit_factor` equals the spec formula — sum of
positive coerced `R` values over sum of absolute negative coerced `R`
values, a coercion failure contributing `0.0`, with the loss-sum-zero
branch returning +∞ when the gain sum is positive and NaN otherwise.  In
particular it is +∞ when at least one `R` is present and every present `R`
is positive, and NaN when no `R` is present or every present `R` is zero. -/
theorem c3_profit_factor_spec (rows : List PyVal) (R_vals : List PyVal)
    (hR : mapExcept (fun r => simField r "R") rows = .ok R_vals) :
    profit_factor rows = .ok (spec_profit_factor (R_vals.map coerceR)) ∧
    ((∃ v ∈ R_vals, (pyFloat v).isSome = true) →
     (∀ v ∈ R_vals, ∀ x, pyFloat v = some x → x.gt (.fin 0) = true) →
     profit_factor rows = .ok (.inf false)) ∧
    ((∀ v ∈ R_vals, pyFloat v = Option.none ∨ pyFloat v = some (.fin 0)) →
     profit_factor rows = .ok .nan) := by
  have hmain : profit_factor rows = .ok (spec_profit_factor (R_vals.map coerceR)) := by
    unfold profit_factor
    rw [hR]
    show Except.ok (pfOfSums (gainsOf (R_vals.map coerceR)) (lossesOf (R_vals.map coerceR))) = _
    rw [gainsOf_eq_spec, lossesOf_eq_spec]
    rfl
  refine ⟨hmain, ?_, ?_⟩
  · rintro ⟨v0, hv0, hsome⟩ hall
    rw [hmain]
    congr 1
    have hnolt : ∀ c ∈ R_vals.map coerceR, ¬ (c.lt (.fin 0) = true) := by
      intro c hc
      obtain ⟨v, hvmem, hveq⟩ := List.mem_map.mp hc
      subst hveq
      simp [coerceR_not_lt_of_pos (hall v hvmem)]
    have hfl : (R_vals.map coerceR).filter (fun c => c.lt (.fin 0)) = [] :=
      List.filter_eq_nil_iff.mpr hnolt
    have hloss : spec_lossSum (R_vals.map coerceR) = .fin 0 := by
      unfold spec_lossSum
      rw [hfl]
      rfl
    have hgt0 : (coerceR v0).gt (.fin 0) = true := by
      unfold coerceR
      cases hp : pyFloat v0 with
      | none => rw [hp] at hsome; simp at hsome
      | some x => simpa [Option.getD] using hall v0 hv0 x hp
    have hfmem : coerceR v0 ∈ (R_vals.map coerceR).filter (fun c => c.gt (.fin 0)) :=
      List.mem_filter.mpr ⟨List.mem_map_of_mem coerceR hv0, hgt0⟩
    have hne : (R_vals.map coerceR).filter (fun c => c.gt (.fin 0)) ≠ [] := by
      intro h0
      rw [h0] at hfmem
      simp at hfmem
    have hgains : PosF (spec_gainsSum (R_vals.map coerceR)) := by
      unfold spec_gainsSum
      exact fold_add_posF_of_ne_nil (fun c hc => (List.mem_filter.mp hc).2) hne
        (Or.inr ⟨0, rfl, le_refl 0⟩)
    unfold spec_profit_factor
    rw [hloss]
    simp [PFloat.eqZero, gt_zero_of_posF hgains]
  · intro hz
    rw [hmain]
    congr 1
    have hall0 : ∀ c ∈ R_vals.map coerceR, c = .fin 0 := by
      intro c hc
      obtain ⟨v, hvmem, hveq⟩ := List.mem_map.mp hc
      subst hveq
      rcases hz v hvmem with hp | hp <;> simp [coerceR, hp, Option.getD]
    have hfg : (R_vals.map coerceR).filter (fun c => c.gt (.fin 0)) = [] := by
      refine List.filter_eq_nil_iff.mpr fun c hc => ?_
      rw [hall0 c hc]
      simp [PFloat.gt]
    have hfl : (R_vals.map coerceR).filter (fun c => c.lt (.fin 0)) = [] := by
      refine List.filter_eq_nil_iff.mpr fun c hc => ?_
      rw [hall0 c hc]
      simp [PFloat.lt]
    unfold spec_profit_factor spec_gainsSum spec_lossSum
    rw [hfg, hfl]
    simp [PFloat.eqZero, PFloat.gt]

/-- C3 witness: a single record with positive `R = 2.0` gives the spec
formula and the +∞ branch. -/
theorem c3_witness :
    profit_factor [c3row] = .ok (spec_profit_factor ([PyVal.float (.fin 2)].map coerceR)) ∧
    profit_factor [c3row] = .ok (.inf false) := by
  have h := c3_profit_factor_spec [c3row] [.float (.fin 2)] (by with_unfolding_all rfl)
  refine ⟨h.1, h.2.1 ⟨.float (.fin 2), List.mem_singleton_self _, rfl⟩ ?_⟩
  intro v hv x hx
  rw [List.mem_singleton] at hv
  subst hv
  simp only [pyFloat, Option.some.injEq] at hx
  subst hx
  simp [PFloat.gt]

/-- C10 counterexample: with a +∞ `R` **and** a −∞ `R`, both sums are
infinite and the quotient `inf/inf` is NaN — so the claim's parenthetical
"profit_factor is +∞ even when negative R values are also present" fails
when the negative value is −∞. -/
theorem c10_pf_nan_with_both_infinities :
    profit_factor [c10rowInf, c10rowNegInf] = .ok .nan ∧ PFloat.nan ≠ .inf false :=
  ⟨by with_unfolding_all rfl, by decide⟩

/-- C10 (corrected): `profit_factor` applies no finiteness filter.  A
coerced +∞ `R` makes the gains sum +∞, and the profit factor is then +∞
provided every *negative* coerced `R` is finite (with a −∞ also present
the loss sum is infinite too and the result is NaN, per the
counterexample); a NaN `R` contributes to neither sum. -/
theorem c10_pf_no_finiteness_filter (rows : List PyVal) (R_vals : List PyVal)
    (hR : mapExcept (fun r => simField r "R") rows = .ok R_vals) :
    ((.inf false) ∈ R_vals.map coerceR → gainsOf (R_vals.map coerceR) = .inf false) ∧
    ((.inf false) ∈ R_vals.map coerceR →
     (∀ c ∈ R_vals.map coerceR, c.lt (.fin 0) = true → c.isFinite = true) →
     profit_factor rows = .ok (.inf false)) ∧
    (∀ pre post, R_vals.map coerceR = pre ++ .nan :: post →
      gainsOf (R_vals.map coerceR) = gainsOf (pre ++ post) ∧
      lossesOf (R_vals.map coerceR) = lossesOf (pre ++ post)) := by
  have hgain : (.inf false) ∈ R_vals.map coerceR →
      gainsOf (R_vals.map coerceR) = .inf false := by
    intro hin
    rw [gainsOf_eq_spec]
    unfold spec_gainsSum
    refine fold_add_inf (fun c hc => (List.mem_filter.mp hc).2)
      (Or.inr ⟨0, rfl, le_refl 0⟩) (Or.inl ?_)
    exact List.mem_filter.mpr ⟨hin, rfl⟩
  refine ⟨hgain, ?_, ?_⟩
  · intro hin hfin
    have hg := hgain hin
    have hlossfin : ∀ e ∈ ((R_vals.map coerceR).filter fun c => c.lt (.fin 0)).map PFloat.abs,
        ∃ p : ℚ, e = .fin p ∧ 0 ≤ p := by
      intro e he
      obtain ⟨c, hcmem, hceq⟩ := List.mem_map.mp he
      obtain ⟨hcl, hclt⟩ := List.mem_filter.mp hcmem
      have hf := hfin c hcl hclt
      cases c with
      | fin a => exact ⟨|a|, hceq ▸ rfl, abs_nonneg a⟩
      | nan => simp [PFloat.isFinite] at hf
      | inf s => simp [PFloat.isFinite] at hf
    obtain ⟨q', hq', hleq⟩ := fold_add_fin hlossfin (le_refl (0 : ℚ))
    have hl : lossesOf (R_vals.map coerceR) = .fin q' := by
      rw [lossesOf_eq_spec]
      unfold spec_lossSum
      exact hleq
    unfold profit_factor
    rw [hR]
    show Except.ok (pfOfSums (gainsOf (R_vals.map coerceR)) (lossesOf (R_vals.map coerceR))) = _
    rw [hg, hl]
    congr 1
    unfold pfOfSums
    by_cases h0 : q' = 0
    · subst h0
      simp [PFloat.eqZero, PFloat.gt]
    · have hpos : 0 < q' := lt_of_le_of_ne hq' (Ne.symm h0)
      simp [PFloat.eqZero, h0, PFloat.div, hpos]
  · intro pre post hsplit
    unfold gainsOf lossesOf
    rw [hsplit, List.foldl_append, List.foldl_append, List.foldl_cons]
    have hskip : pfStep (List.foldl pfStep (.fin 0, .fin 0) pre) .nan =
        List.foldl pfStep (.fin 0, .fin 0) pre := by
      unfold pfStep
      simp [PFloat.gt, PFloat.lt]
    rw [hskip]
    exact ⟨rfl, rfl⟩

/-- C10 witness: with `R` values `+∞` and `-2.0`, the gains sum is
infinite, the loss sum finite, and the profit factor +∞. -/
theorem c10_witness :
    profit_factor [c10rowInf, c10rowNeg2] = .ok (.inf false) := by
  have h := c10_pf_no_finiteness_filter [c10rowInf, c10rowNeg2]
    [.float (.inf false), .float (.fin (-2))] (by with_unfolding_all rfl)
  refine h.2.1 ?_ ?_
  · simp [coerceR, pyFloat, Option.getD]
  · intro c hc hlt
    simp [coerceR, pyFloat, Option.getD] at hc
    rcases hc with rfl | rfl
    · simp [PFloat.lt] at hlt
    · rfl

theorem length_filter_partition (p : PyVal → Bool) (l : List PyVal) :
    (l.filter p).length + (l.filter fun r => !(p r)).length = l.length := by
  induction l with
  | nil => rfl
  | cons r rs ih =>
    by_cases hp : p r = true <;> simp [List.filter_cons, hp] <;> omega

theorem partLoop_eq (events : List PyVal) (h : ∀ r ∈ events, goodSig r = true) :
    ∀ acc : List PyVal × List PyVal,
      partLoop acc events =
        .ok (acc.1 ++ events.filter bnTrue, acc.2 ++ events.filter fun r => !(bnTrue r)) := by
  induction events with
  | nil => intro acc; simp [partLoop]
  | cons r rs ih =>
    intro acc
    have hflag := buyNowFlag_ok_of_goodSig (h r (List.mem_cons_self r rs))
    have hbn := bnTrue_of_goodSig (h r (List.mem_cons_self r rs))
    have ih' := ih fun x hx => h x (List.mem_cons_of_mem r hx)
    unfold partLoop
    rw [hflag]
    show partLoop (if isTrueB (buyNowOf r) then (acc.1 ++ [r], acc.2)
      else (acc.1, acc.2 ++ [r])) rs = _
    rw [← hbn]
    by_cases hb : bnTrue r = true
    · simp only [hb, if_true, ih', List.filter_cons, Bool.not_true]
      simp
    · have hb' : bnTrue r = false := by simpa using hb
      simp only [hb', if_false, ih', List.filter_cons, Bool.not_false]
      simp

/-- C6 counterexample: the partition is **not** total on arbitrary event
lists — an event whose `signal` is a truthy non-mapping raises
AttributeError instead of being routed to the false group. -/
theorem c6_partition_raises_on_truthy_nonmapping_signal :
    exceptIsOk (partitionEvents [.dict [("signal", .str "yes")]]) = false := by
  with_unfolding_all rfl

/-- C6 (corrected): for events that are mappings whose `signal` field is a
mapping or falsy, the partition is exhaustive and disjoint: an event lands
in the true group exactly when its `signal.buyNow` is identically the
boolean `true` (any other value — false, absent, `None`, truthy
non-boolean — lands in the false group), and the two group sizes sum to
the number of events.  On other event lists the partition can raise, per
the counterexample. -/
theorem c6_partition_exhaustive_disjoint (events : List PyVal)
    (h : ∀ r ∈ events, goodSig r = true) :
    partitionEvents events =
      .ok (events.filter bnTrue, events.filter fun r => !(bnTrue r)) ∧
    (events.filter bnTrue).length + (events.filter fun r => !(bnTrue r)).length =
      events.length ∧
    (∀ r ∈ events,
      (r ∈ events.filter bnTrue ↔ buyNowOf r = .bool true) ∧
      (r ∈ (events.filter fun r => !(bnTrue r)) ↔ ¬ buyNowOf r = .bool true)) := by
  refine ⟨?_, length_filter_partition bnTrue events, ?_⟩
  · have := partLoop_eq events h ([], [])
    simpa [partitionEvents] using this
  · intro r hr
    have hbn := bnTrue_of_goodSig (h r hr)
    constructor
    · rw [List.mem_filter]
      constructor
      · rintro ⟨_, hb⟩
        rw [hbn] at hb
        exact isTrueB_iff.mp hb
      · intro hv
        refine ⟨hr, ?_⟩
        rw [hbn]
        exact isTrueB_iff.mpr hv
    · rw [List.mem_filter]
      constructor
      · rintro ⟨_, hb⟩
        intro hv
        rw [hbn] at hb
        rw [isTrueB_iff.mpr hv] at hb
        simp at hb
      · intro hv
        refine ⟨hr, ?_⟩
        rw [hbn]
        cases hcase : isTrueB (buyNowOf r) with
        | true => exact absurd (isTrueB_iff.mp hcase) hv
        | false => rfl

/-- C6 witness: a concrete partition — `recA` (buyNow `True`) to the true
group; `recB` (buyNow `False`), an empty mapping (absent signal) and a
truthy non-boolean `"true"` all to the false group. -/
theorem c6_witness :
    partitionEvents [recA, recB, PyVal.dict [], recStrTrue] =
      .ok ([recA], [recB, PyVal.dict [], recStrTrue]) := by
  have h := (c6_partition_exhaustive_disjoint [recA, recB, .dict [], recStrTrue] (by decide)).1
  rw [h]
  with_unfolding_all rfl

/-- C7 (confirmed): the driver's `delta` returns the difference
`true - false` when both sides are finite and NaN when either side is
non-finite (the summary fields are floats, so the float coercion inside
`delta` is the identity and never fails); in particular a profit factor
with one side infinite gives a NaN delta, and on the spec's two-record
example the `avg_R` delta is `2 - (-1) = 3`. -/
theorem c7_delta_semantics (a b : PFloat) :
    (a.isFinite = true → b.isFinite = true → delta a b = a.sub b) ∧
    (¬(a.isFinite = true ∧ b.isFinite = true) → delta a b = .nan) ∧
    (∀ q : ℚ, delta (.inf false) (.fin q) = .nan ∧ delta (.fin q) (.inf false) = .nan) ∧
    (summarize [recA] = .ok exA ∧ summarize [recB] = .ok exB ∧
     delta exA.avg_R exB.avg_R = .fin 3 ∧
     exA.profit_factor = .inf false ∧
     delta exA.profit_factor exB.profit_factor = .nan) := by
  refine ⟨?_, ?_, ?_, ?_⟩
  · intro ha hb
    simp [delta, ha, hb]
  · intro hab
    have hor : a.isFinite = false ∨ b.isFinite = false := by
      by_cases ha : a.isFinite = true
      · by_cases hb : b.isFinite = true
        · exact absurd ⟨ha, hb⟩ hab
        · exact Or.inr (by simpa using hb)
      · exact Or.inl (by simpa using ha)
    unfold delta
    rcases hor with h | h <;> simp [h]
  · intro q
    exact ⟨rfl, rfl⟩
  · exact ⟨by with_unfolding_all rfl, by with_unfolding_all rfl,
      by with_unfolding_all rfl, rfl, rfl⟩

/-- C7 witness: both sides finite, so the delta is the plain difference. -/
theorem c7_witness : delta (.fin 1) (.fin 0) = PFloat.sub (.fin 1) (.fin 0) :=
  (c7_delta_semantics (.fin 1) (.fin 0)).1 rfl rfl
